import Mathlib

/-!
Shallow embedding of the aggregation pipeline of
src/components/MoonBitcoinAnalysis.js (the processData closure, lines
52-119), together with the definitions the specification's wording calls
for, and theorems settling the frozen claims about them.

Dates are modelled by their parsed timestamps (natural numbers): the source
parses date strings with new Date and only compares the resulting time
values. JS numbers are modelled by rationals; NaN by Option.none wherever
it can arise.
-/

/- Batteries marks rational arithmetic irreducible; re-enable unfolding so
that concrete evaluations can go through the decide tactic. -/
attribute [local semireducible] Rat.mul Rat.add Rat.sub Rat.inv Rat.ofScientific

/-- A price_range_percent cell as PapaParse dynamicTyping delivers it: a
number, null (an empty cell), or a non-numeric string (strings that merely
begin with a numeric prefix are outside the model). -/
inductive Cell where
  | num  (q : ℚ)
  | null
  | nans (s : String)
deriving DecidableEq, Repr

/-- JS Number() coercion of a cell; none models NaN. Number(null) is 0. -/
def Cell.toNumber : Cell → Option ℚ
  | .num q  => some q
  | .null   => some 0
  | .nans _ => none

/-- The coercing global isNaN, as used in the filters of lines 74 and 91:
isNaN(null) is false because Number(null) is 0. -/
def Cell.isNaNJS (c : Cell) : Bool := c.toNumber.isNone

/-- parseFloat on a cell (line 90); none models NaN. parseFloat(null)
parses the string "null" and yields NaN. -/
def Cell.parseFloatJS : Cell → Option ℚ
  | .num q  => some q
  | .null   => none
  | .nans _ => none

/-- A parsed row of moon_bitcoin_merged.csv. -/
structure MoonRow where
  date : ℕ
  phase : String
  price_range_percent : Cell
deriving DecidableEq, Repr

/-- A parsed row of bitcoin_daily_range.csv. -/
structure PriceRow where
  date : ℕ
  price_range_percent : Cell
deriving DecidableEq, Repr

/-- Line 18: the fixed canonical phase order. -/
def phaseOrder : List String :=
  ["New Moon", "First Quarter", "Full Moon", "Last Quarter"]

def jsIndexOfAux (s : String) : List String → ℤ → ℤ
  | [], _ => -1
  | x :: xs, i => if x = s then i else jsIndexOfAux s xs (i + 1)

/-- Array.prototype.indexOf (line 112): the index of the first occurrence,
or -1 when absent. -/
def jsIndexOf (l : List String) (s : String) : ℤ := jsIndexOfAux s l 0

/-- Number.prototype.toFixed(2): a sign taken from the argument, then the
integer nearest to 100 times its absolute value, ties resolved upward. -/
def toFixed2 (q : ℚ) : String :=
  let n : ℕ := (⌊|q| * 100 + 1 / 2⌋).toNat
  (if q < 0 then "-" else "")
    ++ toString (n / 100) ++ "."
    ++ (if n % 100 < 10 then "0" ++ toString (n % 100) else toString (n % 100))

/-- toFixed(2) on a possibly-NaN number: NaN.toFixed(2) is the string
"NaN". -/
def toFixed2Opt : Option ℚ → String
  | none => "NaN"
  | some q => toFixed2 q

/-- The signed integer of hundredths that toFixed2 renders: rounding to the
nearest, ties away from zero. -/
def jround2 (q : ℚ) : ℤ :=
  if q < 0 then -⌊-q * 100 + 1 / 2⌋ else ⌊q * 100 + 1 / 2⌋

/-- The rational value denoted by the string toFixed2 q, i.e. what
Number gives back on that string (line 76). -/
def fix2val (q : ℚ) : ℚ := (jround2 q : ℚ) / 100

/-- lodash _.max over a non-empty numeric array (junk value 0 on []). -/
def listMax : List ℚ → ℚ
  | [] => 0
  | x :: xs => xs.foldl max x

/-- lodash _.min over a non-empty numeric array (junk value 0 on []). -/
def listMin : List ℚ → ℚ
  | [] => 0
  | x :: xs => xs.foldl min x

/-- lodash _.mean over a numeric array: sum divided by length. On the empty
list JS gives NaN; every caller here guards that case separately. -/
def listMean (l : List ℚ) : ℚ := l.sum / l.length

/-- Lines 71-75: _.mean over the cells that survive the !isNaN(range)
filter. The JS + operator coerces null to 0 while the division is by the
full length of the filtered array; a cell failing Number coercion cannot
occur after the filter. The mean of an empty array is NaN (none). -/
def lodashMeanCells (l : List Cell) : Option ℚ :=
  if l.length = 0 then none
  else some ((l.filterMap Cell.toNumber).sum / l.length)

/-- Lines 56-58: the dates of the rows whose phase is the string
New Moon, in input order. -/
def newMoonDates (data : List MoonRow) : List ℕ :=
  (data.filter (fun r => decide (r.phase = "New Moon"))).map (·.date)

/-- Array.prototype.slice(-n): the last n elements (all of them when the
array is shorter). -/
def lastN (n : ℕ) (l : List ℕ) : List ℕ := l.drop (l.length - n)

/-- Lines 60-61: the date of the first of the last selectedPeriod + 1 New
Moon rows in input order; none models the Invalid Date arising from
indexing an empty array. -/
def startDateOf (data : List MoonRow) (selectedPeriod : ℕ) : Option ℕ :=
  (lastN (selectedPeriod + 1) (newMoonDates data)).head?

/-- Lines 63-69: new Date(row.date) >= startDate; every comparison against
an Invalid Date is false. -/
def dateGe (s : Option ℕ) (d : ℕ) : Bool :=
  match s with
  | some t => decide (t ≤ d)
  | none => false

/-- Lines 63-65: the moon rows inside the window. -/
def relevantMoon (data : List MoonRow) (p : ℕ) : List MoonRow :=
  data.filter (fun r => dateGe (startDateOf data p) r.date)

/-- Lines 67-69: the price rows inside the window. -/
def relevantPrice (data : List MoonRow) (bitcoinData : List PriceRow) (p : ℕ) :
    List PriceRow :=
  bitcoinData.filter (fun r => dateGe (startDateOf data p) r.date)

/-- Recursion core of groupKeys. The fuel argument only serves to make the
recursion structural (each step filters the tail, which never grows, so a
fuel of the list length is always enough). -/
def groupKeysAux : ℕ → List MoonRow → List String
  | 0, _ => []
  | _, [] => []
  | Nat.succ n, r :: rs =>
    r.phase :: groupKeysAux n (rs.filter (fun x => ! decide (x.phase = r.phase)))

/-- The keys of _.groupBy(relevantMoonData, phase) in the order
Object.entries yields them: order of first occurrence. -/
def groupKeys (l : List MoonRow) : List String := groupKeysAux l.length l

/-- Object.entries(_.groupBy(l, phase)) (lines 86-88): each first-occurring
phase paired with every row carrying it, in input order. -/
def groupedEntries (l : List MoonRow) : List (String × List MoonRow) :=
  (groupKeys l).map (fun k => (k, l.filter (fun r => decide (r.phase = k))))

/-- One output row (spec section 3, PhaseSummary); the range fields hold
the strings toFixed produces. -/
structure PhaseSummary where
  phase : String
  avgRange : String
  maxRange : String
  minRange : String
  count : ℕ
  periodAvg : String
deriving DecidableEq, Repr

/-- Lines 88-101: the summary of one groupBy entry. -/
def summarize (pm : Option ℚ) (key : String) (entries : List MoonRow) : PhaseSummary :=
  let validRanges := entries.filterMap (fun e => e.price_range_percent.parseFloatJS)
  { phase := key
    avgRange := if validRanges.length ≠ 0 then toFixed2 (listMean validRanges) else "0.00"
    maxRange := if validRanges.length ≠ 0 then toFixed2 (listMax validRanges) else "0.00"
    minRange := if validRanges.length ≠ 0 then toFixed2 (listMin validRanges) else "0.00"
    count := validRanges.length
    periodAvg := toFixed2Opt pm }

/-- Lines 78-84: the four canonical default rows. The source's default
items carry no periodAvg field; the merge of lines 103-109 always sets it,
so the placeholder empty string never reaches the output. -/
def defaultData : List PhaseSummary :=
  phaseOrder.map (fun ph => ⟨ph, "0.00", "0.00", "0.00", 0, ""⟩)

/-- Lines 103-109: spread the matching processed item over the default one
(or keep the default), then set periodAvg. -/
def mergeItem (processed : List PhaseSummary) (pm : Option ℚ) (d : PhaseSummary) :
    PhaseSummary :=
  match processed.find? (fun it => decide (it.phase = d.phase)) with
  | some p => { p with periodAvg := toFixed2Opt pm }
  | none => { d with periodAvg := toFixed2Opt pm }

/-- Insertion step of the stable ascending sort _.sortBy (lines 111-113). -/
def insertByKey (k : PhaseSummary → ℤ) (x : PhaseSummary) :
    List PhaseSummary → List PhaseSummary
  | [] => [x]
  | y :: ys => if k y < k x then y :: insertByKey k x ys else x :: y :: ys

/-- _.sortBy(mergedData, item => phaseOrder.indexOf(item.phase)): a stable
ascending sort on the key. -/
def sortByKey (k : PhaseSummary → ℤ) : List PhaseSummary → List PhaseSummary
  | [] => []
  | x :: xs => insertByKey k x (sortByKey k xs)

/-- Lines 71-75: the period mean fed to setPeriodAverage and periodAvg. -/
def periodMeanOf (data : List MoonRow) (bitcoinData : List PriceRow) (p : ℕ) :
    Option ℚ :=
  lodashMeanCells
    (((relevantPrice data bitcoinData p).map (·.price_range_percent)).filter
      (fun c => ! c.isNaNJS))

/-- Lines 86-101: the per-phase summaries of the grouped window rows. -/
def processedOf (data : List MoonRow) (p : ℕ) (pm : Option ℚ) : List PhaseSummary :=
  (groupedEntries (relevantMoon data p)).map (fun e => summarize pm e.1 e.2)

/-- The published result of one processData run: the sorted table (line
115) and the scalar Number(periodMean.toFixed(2)) (line 76). -/
structure ProcOut where
  processedData : List PhaseSummary
  periodAverage : Option ℚ
deriving DecidableEq, Repr

/-- Lines 56-115: the body of processData after the emptiness guard. -/
def processBody (data : List MoonRow) (bitcoinData : List PriceRow) (p : ℕ) : ProcOut :=
  let pm := periodMeanOf data bitcoinData p
  let processed := processedOf data p pm
  let mergedData := defaultData.map (mergeItem processed pm)
  { processedData := sortByKey (fun it => jsIndexOf phaseOrder it.phase) mergedData
    periodAverage := pm.map fix2val }

/-- Lines 52-116: processData with its guard; none models the early return
of line 54 (no state update). -/
def processData (data : List MoonRow) (bitcoinData : List PriceRow) (p : ℕ) :
    Option ProcOut :=
  if data.length = 0 ∨ bitcoinData.length = 0 then none
  else some (processBody data bitcoinData p)

/-- The published component state that processData touches. -/
structure ViewState where
  processedData : List PhaseSummary
  periodAverage : Option ℚ
deriving DecidableEq, Repr

/-- One invocation of the processData effect: the early return leaves the
previously published state in place; otherwise both pieces of state are
replaced by the fresh result. -/
def runProcess (data : List MoonRow) (bitcoinData : List PriceRow) (p : ℕ)
    (s : ViewState) : ViewState :=
  match processData data bitcoinData p with
  | none => s
  | some out => { processedData := out.processedData, periodAverage := out.periodAverage }

/-- Per-phase valid samples: the parseFloat-valid price_range_percent
values of the window rows carrying the given phase (the validRanges of
lines 89-91 for that phase's group). -/
def phaseValidRanges (data : List MoonRow) (p : ℕ) (ph : String) : List ℚ :=
  ((relevantMoon data p).filter (fun r => decide (r.phase = ph))).filterMap
    (fun e => e.price_range_percent.parseFloatJS)

/-- Modelled from the spec wording (section 4.1 step 1 and glossary), for
comparison with startDateOf: the minimum date among the last
periodCycles + 1 New Moon dates, the New Moon dates taken in ascending
sorted order. -/
def specWindowStart (data : List MoonRow) (p : ℕ) : Option ℕ :=
  match lastN (p + 1) (List.insertionSort (· ≤ ·) (newMoonDates data)) with
  | [] => none
  | x :: xs => some (xs.foldl min x)

/-- Modelled from the spec wording (section 4.1 step 3), for comparison
with periodMeanOf: the mean of the numeric price_range_percent values over
the selected price-row window, rounded to 2 decimals; none when no numeric
value exists in the window. -/
def specPeriodAverage (data : List MoonRow) (bitcoinData : List PriceRow) (p : ℕ) :
    Option ℚ :=
  let vals := (relevantPrice data bitcoinData p).filterMap
    (fun r => match r.price_range_percent with | .num q => some q | _ => none)
  if vals.length = 0 then none else some (fix2val (listMean vals))

/-! ### Structure of the output rows -/

theorem mergeItem_phase (ps : List PhaseSummary) (pm : Option ℚ) (d : PhaseSummary) :
    (mergeItem ps pm d).phase = d.phase := by
  cases hf : ps.find? (fun it => decide (it.phase = d.phase)) with
  | none => simp [mergeItem, hf]
  | some q =>
    have hq : q.phase = d.phase := by simpa using List.find?_some hf
    simp [mergeItem, hf, hq]

theorem mergeItem_periodAvg (ps : List PhaseSummary) (pm : Option ℚ) (d : PhaseSummary) :
    (mergeItem ps pm d).periodAvg = toFixed2Opt pm := by
  cases hf : ps.find? (fun it => decide (it.phase = d.phase)) with
  | none => simp [mergeItem, hf]
  | some q => simp [mergeItem, hf]

theorem mem_insertByKey {k : PhaseSummary → ℤ} {x y : PhaseSummary} :
    ∀ {l : List PhaseSummary}, y ∈ insertByKey k x l ↔ y = x ∨ y ∈ l := by
  intro l
  induction l with
  | nil => simp [insertByKey]
  | cons z zs ih =>
    simp only [insertByKey]
    split
    · simp only [List.mem_cons, ih]
      tauto
    · simp only [List.mem_cons]

theorem mem_sortByKey {k : PhaseSummary → ℤ} {y : PhaseSummary} :
    ∀ {l : List PhaseSummary}, y ∈ sortByKey k l ↔ y ∈ l := by
  intro l
  induction l with
  | nil => simp [sortByKey]
  | cons z zs ih => simp [sortByKey, mem_insertByKey, ih]

theorem sortByKey_four (k : PhaseSummary → ℤ) (a b c d : PhaseSummary)
    (h0 : k a = 0) (h1 : k b = 1) (h2 : k c = 2) (h3 : k d = 3) :
    sortByKey k [a, b, c, d] = [a, b, c, d] := by
  simp [sortByKey, insertByKey, h0, h1, h2, h3]

theorem sortedMerged_map_phase (ps : List PhaseSummary) (pm : Option ℚ) :
    (sortByKey (fun it => jsIndexOf phaseOrder it.phase)
      (defaultData.map (mergeItem ps pm))).map (fun e => e.phase) = phaseOrder := by
  have hdd : defaultData =
      [⟨"New Moon", "0.00", "0.00", "0.00", 0, ""⟩,
       ⟨"First Quarter", "0.00", "0.00", "0.00", 0, ""⟩,
       ⟨"Full Moon", "0.00", "0.00", "0.00", 0, ""⟩,
       ⟨"Last Quarter", "0.00", "0.00", "0.00", 0, ""⟩] := rfl
  have hA : jsIndexOf phaseOrder
      (mergeItem ps pm ⟨"New Moon", "0.00", "0.00", "0.00", 0, ""⟩).phase = 0 := by
    rw [mergeItem_phase]; decide
  have hB : jsIndexOf phaseOrder
      (mergeItem ps pm ⟨"First Quarter", "0.00", "0.00", "0.00", 0, ""⟩).phase = 1 := by
    rw [mergeItem_phase]; decide
  have hC : jsIndexOf phaseOrder
      (mergeItem ps pm ⟨"Full Moon", "0.00", "0.00", "0.00", 0, ""⟩).phase = 2 := by
    rw [mergeItem_phase]; decide
  have hD : jsIndexOf phaseOrder
      (mergeItem ps pm ⟨"Last Quarter", "0.00", "0.00", "0.00", 0, ""⟩).phase = 3 := by
    rw [mergeItem_phase]; decide
  rw [hdd, List.map_cons, List.map_cons, List.map_cons, List.map_cons, List.map_nil,
    sortByKey_four _ _ _ _ _ hA hB hC hD]
  simp [mergeItem_phase, phaseOrder]

theorem processBody_rows_phases (data : List MoonRow) (bitcoinData : List PriceRow) (p : ℕ) :
    (processBody data bitcoinData p).processedData.map (fun e => e.phase) = phaseOrder := by
  simp only [processBody]
  exact sortedMerged_map_phase _ _

theorem mem_processBody_rows {data : List MoonRow} {bitcoinData : List PriceRow} {p : ℕ}
    {e : PhaseSummary} (he : e ∈ (processBody data bitcoinData p).processedData) :
    ∃ d ∈ defaultData,
      e = mergeItem (processedOf data p (periodMeanOf data bitcoinData p))
            (periodMeanOf data bitcoinData p) d := by
  simp only [processBody] at he
  rw [mem_sortByKey] at he
  obtain ⟨d, hd, hde⟩ := List.mem_map.mp he
  exact ⟨d, hd, hde.symm⟩

theorem defaultData_fields {d : PhaseSummary} (hd : d ∈ defaultData) :
    d.count = 0 ∧ d.avgRange = "0.00" ∧ d.maxRange = "0.00" ∧ d.minRange = "0.00" := by
  simp only [defaultData, phaseOrder, List.map_cons, List.map_nil, List.mem_cons,
    List.not_mem_nil, or_false] at hd
  rcases hd with rfl | rfl | rfl | rfl <;> exact ⟨rfl, rfl, rfl, rfl⟩

theorem processedOf_mem {data : List MoonRow} {p : ℕ} {pm : Option ℚ} {e : PhaseSummary}
    (he : e ∈ processedOf data p pm) :
    ∃ k, e = summarize pm k
      ((relevantMoon data p).filter (fun r => decide (r.phase = k))) := by
  simp only [processedOf, groupedEntries, List.map_map, List.mem_map,
    Function.comp] at he
  obtain ⟨k, _, hk⟩ := he
  exact ⟨k, hk.symm⟩

/-! ### Rounding -/

theorem jround2_mono {a b : ℚ} (h : a ≤ b) : jround2 a ≤ jround2 b := by
  unfold jround2
  split_ifs with ha hb hb
  · have : -b * 100 + 1 / 2 ≤ -a * 100 + 1 / 2 := by linarith
    exact neg_le_neg (Int.floor_le_floor this)
  · have h1 : (0 : ℤ) ≤ ⌊-a * 100 + 1 / 2⌋ := Int.floor_nonneg.mpr (by linarith)
    have h2 : (0 : ℤ) ≤ ⌊b * 100 + 1 / 2⌋ := by
      push_neg at hb
      exact Int.floor_nonneg.mpr (by linarith)
    omega
  · exact absurd (lt_of_le_of_lt h hb) (by push_neg at ha; exact not_lt.mpr ha)
  · exact Int.floor_le_floor (by linarith)

theorem fix2val_mono {a b : ℚ} (h : a ≤ b) : fix2val a ≤ fix2val b := by
  unfold fix2val
  have hq : (jround2 a : ℚ) ≤ (jround2 b : ℚ) := by exact_mod_cast jround2_mono h
  have h100 : (0 : ℚ) < 100 := by norm_num
  exact (div_le_div_iff_of_pos_right h100).mpr hq

/-! ### Bounds on the list statistics -/

theorem le_foldl_max (x : ℚ) (l : List ℚ) : x ≤ l.foldl max x := by
  induction l generalizing x with
  | nil => simp
  | cons y ys ih =>
    simp only [List.foldl_cons]
    exact le_trans (le_max_left x y) (ih (max x y))

theorem mem_le_foldl_max {y : ℚ} {l : List ℚ} (x : ℚ) (hy : y ∈ l) :
    y ≤ l.foldl max x := by
  induction l generalizing x with
  | nil => cases hy
  | cons z zs ih =>
    simp only [List.foldl_cons]
    rcases List.mem_cons.mp hy with rfl | hmem
    · exact le_trans (le_max_right x y) (le_foldl_max (max x y) zs)
    · exact ih _ hmem

theorem le_listMax {l : List ℚ} {y : ℚ} (hy : y ∈ l) : y ≤ listMax l := by
  cases l with
  | nil => cases hy
  | cons z zs =>
    rcases List.mem_cons.mp hy with rfl | hmem
    · exact le_foldl_max y zs
    · exact mem_le_foldl_max z hmem

theorem foldl_min_le (x : ℚ) (l : List ℚ) : l.foldl min x ≤ x := by
  induction l generalizing x with
  | nil => simp
  | cons y ys ih =>
    simp only [List.foldl_cons]
    exact le_trans (ih (min x y)) (min_le_left x y)

theorem foldl_min_le_mem {y : ℚ} {l : List ℚ} (x : ℚ) (hy : y ∈ l) :
    l.foldl min x ≤ y := by
  induction l generalizing x with
  | nil => cases hy
  | cons z zs ih =>
    simp only [List.foldl_cons]
    rcases List.mem_cons.mp hy with rfl | hmem
    · exact le_trans (foldl_min_le (min x y) zs) (min_le_right x y)
    · exact ih _ hmem

theorem listMin_le {l : List ℚ} {y : ℚ} (hy : y ∈ l) : listMin l ≤ y := by
  cases l with
  | nil => cases hy
  | cons z zs =>
    rcases List.mem_cons.mp hy with rfl | hmem
    · exact foldl_min_le y zs
    · exact foldl_min_le_mem z hmem

theorem listMean_le_listMax {l : List ℚ} (h : l ≠ []) : listMean l ≤ listMax l := by
  have hlen : (0 : ℚ) < l.length := by
    exact_mod_cast List.length_pos.mpr h
  rw [listMean, div_le_iff₀ hlen]
  calc l.sum ≤ l.length • listMax l :=
        List.sum_le_card_nsmul l _ (fun x hx => le_listMax hx)
    _ = listMax l * l.length := by rw [nsmul_eq_mul]; ring

theorem listMin_le_listMean {l : List ℚ} (h : l ≠ []) : listMin l ≤ listMean l := by
  have hlen : (0 : ℚ) < l.length := by
    exact_mod_cast List.length_pos.mpr h
  rw [listMean, le_div_iff₀ hlen]
  calc listMin l * l.length = l.length • listMin l := by rw [nsmul_eq_mul]; ring
    _ ≤ l.sum := List.card_nsmul_le_sum l _ (fun x hx => listMin_le hx)

/-! ### Sorted-list helpers for the window -/

theorem head?_drop_eq (l : List ℕ) (n : ℕ) : (l.drop n).head? = l[n]? := by
  induction l generalizing n with
  | nil => simp
  | cons x xs ih =>
    cases n with
    | zero => simp
    | succ m => simp [ih m]

theorem foldl_min_eq_self {x : ℕ} {xs : List ℕ} (h : ∀ y ∈ xs, x ≤ y) :
    xs.foldl min x = x := by
  induction xs with
  | nil => rfl
  | cons y ys ih =>
    simp only [List.foldl_cons]
    rw [min_eq_left (h y (List.mem_cons_self y ys))]
    exact ih (fun z hz => h z (List.mem_cons_of_mem y hz))

theorem newMoonDates_sorted {data : List MoonRow}
    (hs : List.Sorted (· ≤ ·) (data.map (fun r => r.date))) :
    List.Sorted (· ≤ ·) (newMoonDates data) := by
  have hsub : List.Sublist (newMoonDates data) (data.map (fun r => r.date)) :=
    List.Sublist.map _ (List.filter_sublist data)
  exact List.Pairwise.sublist hsub hs

/-! ### Claims -/

/-- Claim C1: for every pair of non-empty input datasets and every
periodCycles value, the output table contains exactly 4 entries, one per
canonical moon phase, in the fixed order New Moon, First Quarter, Full
Moon, Last Quarter; rows whose phase is not canonical never produce an
output entry. -/
theorem C1_output_four_canonical_phases (data : List MoonRow)
    (bitcoinData : List PriceRow) (p : ℕ) (hm : data ≠ []) (hb : bitcoinData ≠ []) :
    (processData data bitcoinData p).map (fun o => o.processedData.map (fun e => e.phase))
      = some ["New Moon", "First Quarter", "Full Moon", "Last Quarter"] := by
  rw [processData, if_neg]
  · simp only [Option.map_some', processBody_rows_phases]
    rfl
  · simp [List.length_eq_zero, hm, hb]

def w1moon : List MoonRow := [⟨0, "New Moon", Cell.num 1⟩]

def w1price : List PriceRow := [⟨0, Cell.num 1⟩]

/-- Witness for C1 at a concrete input. -/
theorem C1_output_four_canonical_phases_witness :
    (processData w1moon w1price 1).map (fun o => o.processedData.map (fun e => e.phase))
      = some ["New Moon", "First Quarter", "Full Moon", "Last Quarter"] :=
  C1_output_four_canonical_phases w1moon w1price 1 (by decide) (by decide)

def c2moon : List MoonRow := [⟨1, "New Moon", Cell.num 2⟩]

def c2price : List PriceRow := [⟨1, Cell.num 2⟩, ⟨2, Cell.null⟩]

/-- Counterexample to claim C2 as stated: with a null price cell in the
window, every periodAvg field renders the lodash mean 1.00 (null passes the
isNaN filter and counts as a zero sample), while the mean of the valid
values rounded to 2 decimals is 2.00, so the fields do not equal the
claim's characterisation of the scalar. -/
theorem C2_claim_false_null_window :
    (processData c2moon c2price 1).map (fun o => o.processedData.map (fun e => e.periodAvg))
      = some ["1.00", "1.00", "1.00", "1.00"] ∧
    toFixed2Opt (specPeriodAverage c2moon c2price 1) = "2.00" := by decide

/-- Claim C2 amended: in every aggregator output, the periodAvg field is
identical across all 4 phase entries and both it and the published
PeriodAverage scalar derive from the same period mean of the invocation
(the lodash mean over the window price values passing the isNaN filter,
rounded to 2 decimals). -/
theorem C2_periodAvg_uniform (data : List MoonRow) (bitcoinData : List PriceRow)
    (p : ℕ) (out : ProcOut) (h : processData data bitcoinData p = some out) :
    (∀ e ∈ out.processedData, e.periodAvg = toFixed2Opt (periodMeanOf data bitcoinData p)) ∧
    out.periodAverage = (periodMeanOf data bitcoinData p).map fix2val := by
  have hout : out = processBody data bitcoinData p := by
    rw [processData] at h
    split at h
    · exact absurd h (by simp)
    · exact (Option.some.inj h).symm
  subst hout
  constructor
  · intro e he
    obtain ⟨d, hd, rfl⟩ := mem_processBody_rows he
    exact mergeItem_periodAvg _ _ _
  · simp [processBody]

def w2moon : List MoonRow := [⟨0, "New Moon", Cell.num 4⟩]

def w2price : List PriceRow := [⟨0, Cell.num 4⟩]

def w2entry : PhaseSummary := ⟨"Full Moon", "0.00", "0.00", "0.00", 0, "4.00"⟩

/-- Witness for the amended C2 at a concrete input. -/
theorem C2_periodAvg_uniform_witness :
    w2entry.periodAvg = toFixed2Opt (periodMeanOf w2moon w2price 1) ∧
    (processBody w2moon w2price 1).periodAverage
      = (periodMeanOf w2moon w2price 1).map fix2val :=
  ⟨(C2_periodAvg_uniform w2moon w2price 1 (processBody w2moon w2price 1) rfl).1
      w2entry (by decide),
   (C2_periodAvg_uniform w2moon w2price 1 (processBody w2moon w2price 1) rfl).2⟩

def c3moon : List MoonRow := [⟨1, "New Moon", Cell.num 2⟩, ⟨2, "New Moon", Cell.null⟩]

def c3price : List PriceRow := [⟨1, Cell.num 2⟩, ⟨2, Cell.null⟩]

/-- Claim C3 at the failing input: a null price_range_percent is correctly
excluded from the per-phase statistics (New Moon averages 2.00 over count
1), but it is NOT excluded from the period average: isNaN(null) is false,
so the null row stays in the lodash mean, which returns 1 instead of the
mean 2 of the valid values (the spec-modelled value). -/
theorem C3_null_skews_period_mean :
    periodMeanOf c3moon c3price 1 = some 1 ∧
    specPeriodAverage c3moon c3price 1 = some 2 ∧
    (processData c3moon c3price 1).map (fun o => o.periodAverage) = some (some 1) ∧
    (processData c3moon c3price 1).map
        (fun o => o.processedData.map (fun e => (e.phase, e.avgRange, e.count)))
      = some [("New Moon", "2.00", 1), ("First Quarter", "0.00", 0),
              ("Full Moon", "0.00", 0), ("Last Quarter", "0.00", 0)] := by decide

def c4moon : List MoonRow := [⟨0, "Full Moon", Cell.num 1⟩]

def c4price : List PriceRow := [⟨0, Cell.num 1⟩]

/-- Counterexample to claim C4 as stated: with non-empty datasets but zero
New Moon rows, the period average is NaN (modelled as none) and every
periodAvg field is the string NaN, not a zero or otherwise defined value. -/
theorem C4_claim_false_nan_period_average :
    (processData c4moon c4price 1).map (fun o => o.periodAverage) = some none ∧
    (processData c4moon c4price 1).map
        (fun o => o.processedData.map (fun e => e.periodAvg))
      = some ["NaN", "NaN", "NaN", "NaN"] := by decide

/-- Claim C4 amended: if the moon dataset contains zero New Moon rows while
both datasets are non-empty, the aggregation still returns without
throwing: 4 canonical phase entries with all range fields 0.00 and count 0,
but the period average is NaN (periodAvg fields are the string NaN and the
published scalar is NaN), not a zero/defined value. -/
theorem C4_no_new_moon_all_zero_nan (data : List MoonRow) (bitcoinData : List PriceRow)
    (p : ℕ) (hm : data ≠ []) (hb : bitcoinData ≠ [])
    (hnm : ∀ r ∈ data, r.phase ≠ "New Moon") :
    processData data bitcoinData p =
      some ⟨phaseOrder.map (fun ph => ⟨ph, "0.00", "0.00", "0.00", 0, "NaN"⟩), none⟩ := by
  have hnmd : newMoonDates data = [] := by
    have hfil : data.filter (fun r => decide (r.phase = "New Moon")) = [] :=
      List.filter_eq_nil_iff.mpr (by intro r hr; simpa using hnm r hr)
    simp [newMoonDates, hfil]
  have hsd : startDateOf data p = none := by
    rw [startDateOf, hnmd]
    simp [lastN]
  have hrm : relevantMoon data p = [] := by
    rw [relevantMoon, hsd]
    exact List.filter_eq_nil_iff.mpr (fun r _ => by simp [dateGe])
  have hrp : relevantPrice data bitcoinData p = [] := by
    rw [relevantPrice, hsd]
    exact List.filter_eq_nil_iff.mpr (fun r _ => by simp [dateGe])
  have hpm : periodMeanOf data bitcoinData p = none := by
    rw [periodMeanOf, hrp]
    rfl
  have hpo : processedOf data p (periodMeanOf data bitcoinData p) = [] := by
    rw [processedOf, hrm]
    rfl
  rw [processData, if_neg (by simp [List.length_eq_zero, hm, hb])]
  simp only [processBody]
  rw [hpo, hpm]
  decide

def w4moon : List MoonRow := [⟨5, "Full Moon", Cell.num 3⟩]

def w4price : List PriceRow := [⟨5, Cell.num 3⟩]

/-- Witness for the amended C4 at a concrete input. -/
theorem C4_no_new_moon_all_zero_nan_witness :
    processData w4moon w4price 2 =
      some ⟨phaseOrder.map (fun ph => ⟨ph, "0.00", "0.00", "0.00", 0, "NaN"⟩), none⟩ :=
  C4_no_new_moon_all_zero_nan w4moon w4price 2 (by decide) (by decide) (by decide)

def c5moon : List MoonRow :=
  [⟨30, "New Moon", Cell.num 1⟩, ⟨10, "New Moon", Cell.num 1⟩, ⟨20, "New Moon", Cell.num 1⟩]

/-- Counterexample to claim C5 as stated: with New Moon rows supplied out
of date order (30, 10, 20) and periodCycles 1, the code's window start is
the date of the first of the last two New Moon rows in input order (10),
while the minimum of the last two New Moon dates after ascending sorting
is 20. -/
theorem C5_claim_false_unsorted_input :
    startDateOf c5moon 1 = some 10 ∧ specWindowStart c5moon 1 = some 20 := by decide

/-- Claim C5 amended: the window start is the date of the first of the last
periodCycles + 1 New Moon rows in input order, with no sorting; whenever
the New Moon dates appear in ascending order this equals the minimum date
among the last periodCycles + 1 New Moon dates of the ascending-sorted
sequence. -/
theorem C5_start_eq_min_of_sorted (data : List MoonRow) (p : ℕ)
    (hs : List.Sorted (· ≤ ·) (newMoonDates data)) :
    startDateOf data p = specWindowStart data p := by
  rw [specWindowStart, List.Sorted.insertionSort_eq hs]
  cases hcase : lastN (p + 1) (newMoonDates data) with
  | nil =>
    rw [startDateOf, hcase]
    rfl
  | cons x xs =>
    have hsuffix : List.Sorted (· ≤ ·) (x :: xs) := by
      rw [← hcase]
      exact List.Pairwise.sublist (List.drop_sublist _ _) hs
    have hmin : xs.foldl min x = x :=
      foldl_min_eq_self (List.rel_of_sorted_cons hsuffix)
    rw [startDateOf, hcase]
    simp [hmin]

def w5moon : List MoonRow := [⟨3, "New Moon", Cell.num 1⟩, ⟨7, "New Moon", Cell.num 2⟩]

/-- Witness for the amended C5 at a concrete input. -/
theorem C5_start_eq_min_of_sorted_witness :
    startDateOf w5moon 3 = specWindowStart w5moon 3 :=
  C5_start_eq_min_of_sorted w5moon 3 (by decide)

def c6moon : List MoonRow :=
  [⟨1, "New Moon", Cell.num 2⟩, ⟨8, "First Quarter", Cell.num 3⟩,
   ⟨15, "Full Moon", Cell.num 1⟩, ⟨23, "Last Quarter", Cell.num 4⟩,
   ⟨31, "New Moon", Cell.num (5 / 2)⟩]

def c6price : List PriceRow :=
  [⟨1, Cell.num 2⟩, ⟨8, Cell.num 3⟩, ⟨15, Cell.num 1⟩, ⟨23, Cell.num 4⟩,
   ⟨31, Cell.num (5 / 2)⟩]

/-- Claim C6: the spec scenario. The dates 2024-01-01, 2024-01-08,
2024-01-15, 2024-01-23 and 2024-01-31 are modelled by their day numbers 1,
8, 15, 23 and 31. With periodCycles 1 the
window starts at the earlier (1) of the last two New Moons, all 5 rows of
each dataset are selected, the period average is 2.50 (the rational 5/2),
and the per-phase summaries are New Moon 2.25 over count 2, First Quarter
3.00, Full Moon 1.00 and Last Quarter 4.00, each over count 1. -/
theorem C6_scenario_period_one :
    startDateOf c6moon 1 = some 1 ∧
    (relevantMoon c6moon 1).length = 5 ∧
    (relevantPrice c6moon c6price 1).length = 5 ∧
    processData c6moon c6price 1 =
      some ⟨[⟨"New Moon", "2.25", "2.50", "2.00", 2, "2.50"⟩,
             ⟨"First Quarter", "3.00", "3.00", "3.00", 1, "2.50"⟩,
             ⟨"Full Moon", "1.00", "1.00", "1.00", 1, "2.50"⟩,
             ⟨"Last Quarter", "4.00", "4.00", "4.00", 1, "2.50"⟩], some (5 / 2)⟩ := by
  decide

/-- Claim C10: if either input dataset is empty, processData returns early
and the previously published output table and period average stay
unchanged. -/
theorem C10_empty_input_no_update (data : List MoonRow) (bitcoinData : List PriceRow)
    (p : ℕ) (s : ViewState) (h : data = [] ∨ bitcoinData = []) :
    runProcess data bitcoinData p s = s := by
  rcases h with rfl | rfl
  · simp [runProcess, processData]
  · simp [runProcess, processData]

def w10state : ViewState :=
  ⟨[⟨"New Moon", "1.00", "1.00", "1.00", 1, "1.00"⟩], some 1⟩

/-- Witness for C10 at a concrete input. -/
theorem C10_empty_input_no_update_witness :
    runProcess [] [⟨0, Cell.num 1⟩] 3 w10state = w10state :=
  C10_empty_input_no_update [] [⟨0, Cell.num 1⟩] 3 w10state (Or.inl rfl)

theorem processData_some {data : List MoonRow} {bitcoinData : List PriceRow} {p : ℕ}
    {out : ProcOut} (h : processData data bitcoinData p = some out) :
    out = processBody data bitcoinData p := by
  rw [processData] at h
  split at h
  · exact absurd h (by simp)
  · exact (Option.some.inj h).symm

theorem summarize_spec (pm : Option ℚ) (k : String) (es : List MoonRow)
    (hne : es.filterMap (fun e => e.price_range_percent.parseFloatJS) ≠ []) :
    summarize pm k es = ⟨k,
      toFixed2 (listMean (es.filterMap (fun e => e.price_range_percent.parseFloatJS))),
      toFixed2 (listMax (es.filterMap (fun e => e.price_range_percent.parseFloatJS))),
      toFixed2 (listMin (es.filterMap (fun e => e.price_range_percent.parseFloatJS))),
      (es.filterMap (fun e => e.price_range_percent.parseFloatJS)).length,
      toFixed2Opt pm⟩ := by
  have hc : (es.filterMap (fun e => e.price_range_percent.parseFloatJS)).length ≠ 0 :=
    fun h0 => hne (List.length_eq_zero.mp h0)
  simp only [summarize, if_pos hc]

/-- Claim C7: for every pair of datasets that are sorted ascending by date
and contain at least one New Moon row, increasing periodCycles never
decreases the number of moon rows or price rows selected into the
aggregation window. -/
theorem C7_window_monotone (data : List MoonRow) (bitcoinData : List PriceRow)
    (p₁ p₂ : ℕ) (hp : p₁ ≤ p₂)
    (hsm : List.Sorted (· ≤ ·) (data.map (fun r => r.date)))
    (_hsb : List.Sorted (· ≤ ·) (bitcoinData.map (fun r => r.date)))
    (hnm : ∃ r ∈ data, r.phase = "New Moon") :
    (relevantMoon data p₁).length ≤ (relevantMoon data p₂).length ∧
    (relevantPrice data bitcoinData p₁).length ≤ (relevantPrice data bitcoinData p₂).length := by
  have hnms : List.Sorted (· ≤ ·) (newMoonDates data) := newMoonDates_sorted hsm
  have hne : newMoonDates data ≠ [] := by
    obtain ⟨r, hr, hph⟩ := hnm
    have hmem : r.date ∈ newMoonDates data := by
      simp only [newMoonDates, List.mem_map]
      exact ⟨r, List.mem_filter.mpr ⟨hr, by simp [hph]⟩, rfl⟩
    exact List.ne_nil_of_mem hmem
  have hlen : 0 < (newMoonDates data).length := List.length_pos.mpr hne
  have hk : ∀ q : ℕ, (newMoonDates data).length - (q + 1) < (newMoonDates data).length :=
    fun q => Nat.sub_lt hlen (Nat.succ_pos q)
  have hstart : ∀ q : ℕ, startDateOf data q
      = some ((newMoonDates data).get ⟨(newMoonDates data).length - (q + 1), hk q⟩) := by
    intro q
    rw [startDateOf, lastN, head?_drop_eq]
    simp [List.getElem?_eq_getElem (hk q)]
  have hs21 : (newMoonDates data).get ⟨(newMoonDates data).length - (p₂ + 1), hk p₂⟩
      ≤ (newMoonDates data).get ⟨(newMoonDates data).length - (p₁ + 1), hk p₁⟩ := by
    apply hnms.rel_get_of_le
    exact Fin.mk_le_mk.mpr (Nat.sub_le_sub_left (Nat.succ_le_succ hp) _)
  have himp : ∀ t : ℕ,
      dateGe (startDateOf data p₁) t = true → dateGe (startDateOf data p₂) t = true := by
    intro t ht
    rw [hstart p₁] at ht
    rw [hstart p₂]
    simp only [dateGe, decide_eq_true_eq] at ht ⊢
    exact le_trans hs21 ht
  constructor
  · have hsub : List.Sublist (relevantMoon data p₁) (relevantMoon data p₂) := by
      simp only [relevantMoon]
      exact List.monotone_filter_right data (fun a ha => himp a.date ha)
    exact hsub.length_le
  · have hsub : List.Sublist (relevantPrice data bitcoinData p₁)
        (relevantPrice data bitcoinData p₂) := by
      simp only [relevantPrice]
      exact List.monotone_filter_right bitcoinData (fun a ha => himp a.date ha)
    exact hsub.length_le

def w7moon : List MoonRow := [⟨0, "New Moon", Cell.num 1⟩, ⟨5, "New Moon", Cell.num 2⟩]

def w7price : List PriceRow := [⟨0, Cell.num 1⟩, ⟨5, Cell.num 2⟩]

/-- Witness for C7 at a concrete input. -/
theorem C7_window_monotone_witness :
    (relevantMoon w7moon 0).length ≤ (relevantMoon w7moon 1).length ∧
    (relevantPrice w7moon w7price 0).length ≤ (relevantPrice w7moon w7price 1).length :=
  C7_window_monotone w7moon w7price 0 1 (by decide) (by decide) (by decide) (by decide)

/-- Claim C8: every output entry with positive count carries the 2-decimal
renderings of the min, mean and max of its phase's valid
price_range_percent samples in the window, and the rational values those
three strings denote satisfy min <= avg <= max. -/
theorem C8_min_le_avg_le_max (data : List MoonRow) (bitcoinData : List PriceRow) (p : ℕ)
    (out : ProcOut) (h : processData data bitcoinData p = some out)
    (e : PhaseSummary) (he : e ∈ out.processedData) (hc : 0 < e.count) :
    e.minRange = toFixed2 (listMin (phaseValidRanges data p e.phase)) ∧
    e.avgRange = toFixed2 (listMean (phaseValidRanges data p e.phase)) ∧
    e.maxRange = toFixed2 (listMax (phaseValidRanges data p e.phase)) ∧
    fix2val (listMin (phaseValidRanges data p e.phase))
      ≤ fix2val (listMean (phaseValidRanges data p e.phase)) ∧
    fix2val (listMean (phaseValidRanges data p e.phase))
      ≤ fix2val (listMax (phaseValidRanges data p e.phase)) := by
  have hout := processData_some h
  subst hout
  obtain ⟨d, hd, hme⟩ := mem_processBody_rows he
  cases hf : (processedOf data p (periodMeanOf data bitcoinData p)).find?
      (fun it => decide (it.phase = d.phase)) with
  | none =>
    exfalso
    have he2 : e = { d with periodAvg := toFixed2Opt (periodMeanOf data bitcoinData p) } := by
      rw [hme]; simp only [mergeItem, hf]
    rw [he2] at hc
    have h0 := (defaultData_fields hd).1
    simp only [h0] at hc
    exact absurd hc (by simp)
  | some pi =>
    have hpi : pi ∈ processedOf data p (periodMeanOf data bitcoinData p) :=
      List.mem_of_find?_eq_some hf
    obtain ⟨k, hk⟩ := processedOf_mem hpi
    have he2 : e = { pi with periodAvg := toFixed2Opt (periodMeanOf data bitcoinData p) } := by
      rw [hme]; simp only [mergeItem, hf]
    have hcount : e.count = (phaseValidRanges data p k).length := by
      rw [he2, hk]; rfl
    have hvne : phaseValidRanges data p k ≠ [] := by
      apply List.length_pos.mp
      rw [← hcount]
      exact hc
    have hephase : e.phase = k := by
      rw [he2, hk]; rfl
    have hsum := summarize_spec (periodMeanOf data bitcoinData p) k
      ((relevantMoon data p).filter (fun r => decide (r.phase = k))) hvne
    have he3 : e = ⟨k,
        toFixed2 (listMean (phaseValidRanges data p k)),
        toFixed2 (listMax (phaseValidRanges data p k)),
        toFixed2 (listMin (phaseValidRanges data p k)),
        (phaseValidRanges data p k).length,
        toFixed2Opt (periodMeanOf data bitcoinData p)⟩ := by
      rw [he2, hk, hsum]
      rfl
    rw [hephase]
    exact ⟨by rw [he3], by rw [he3], by rw [he3],
      fix2val_mono (listMin_le_listMean hvne),
      fix2val_mono (listMean_le_listMax hvne)⟩

def w8moon : List MoonRow := [⟨0, "New Moon", Cell.num 3⟩]

def w8price : List PriceRow := [⟨0, Cell.num 3⟩]

def w8entry : PhaseSummary := ⟨"New Moon", "3.00", "3.00", "3.00", 1, "3.00"⟩

/-- Witness for C8 at a concrete input. -/
theorem C8_min_le_avg_le_max_witness :
    w8entry.minRange = toFixed2 (listMin (phaseValidRanges w8moon 1 w8entry.phase)) ∧
    w8entry.avgRange = toFixed2 (listMean (phaseValidRanges w8moon 1 w8entry.phase)) ∧
    w8entry.maxRange = toFixed2 (listMax (phaseValidRanges w8moon 1 w8entry.phase)) ∧
    fix2val (listMin (phaseValidRanges w8moon 1 w8entry.phase))
      ≤ fix2val (listMean (phaseValidRanges w8moon 1 w8entry.phase)) ∧
    fix2val (listMean (phaseValidRanges w8moon 1 w8entry.phase))
      ≤ fix2val (listMax (phaseValidRanges w8moon 1 w8entry.phase)) :=
  C8_min_le_avg_le_max w8moon w8price 1 (processBody w8moon w8price 1) rfl
    w8entry (by decide) (by decide)

/-- Claim C9: the output always holds all four canonical phases, and every
entry with count 0 has avgRange, maxRange and minRange exactly 0.00. -/
theorem C9_zero_count_fields (data : List MoonRow) (bitcoinData : List PriceRow) (p : ℕ)
    (out : ProcOut) (h : processData data bitcoinData p = some out) :
    out.processedData.map (fun e => e.phase) = phaseOrder ∧
    ∀ e ∈ out.processedData, e.count = 0 →
      e.avgRange = "0.00" ∧ e.maxRange = "0.00" ∧ e.minRange = "0.00" := by
  have hout := processData_some h
  subst hout
  constructor
  · exact processBody_rows_phases data bitcoinData p
  · intro e he hc
    obtain ⟨d, hd, hme⟩ := mem_processBody_rows he
    cases hf : (processedOf data p (periodMeanOf data bitcoinData p)).find?
        (fun it => decide (it.phase = d.phase)) with
    | none =>
      have he2 : e = { d with periodAvg := toFixed2Opt (periodMeanOf data bitcoinData p) } := by
        rw [hme]; simp only [mergeItem, hf]
      obtain ⟨-, h1, h2, h3⟩ := defaultData_fields hd
      rw [he2]
      exact ⟨h1, h2, h3⟩
    | some pi =>
      have hpi : pi ∈ processedOf data p (periodMeanOf data bitcoinData p) :=
        List.mem_of_find?_eq_some hf
      obtain ⟨k, hk⟩ := processedOf_mem hpi
      have he2 : e = { pi with periodAvg := toFixed2Opt (periodMeanOf data bitcoinData p) } := by
        rw [hme]; simp only [mergeItem, hf]
      have hcount : e.count = (phaseValidRanges data p k).length := by
        rw [he2, hk]; rfl
      have hlen0 : ((relevantMoon data p).filter (fun r => decide (r.phase = k))).filterMap
          (fun x => x.price_range_percent.parseFloatJS) = [] := by
        apply List.length_eq_zero.mp
        have : (phaseValidRanges data p k).length = 0 := by rw [← hcount]; exact hc
        exact this
      rw [he2, hk]
      simp [summarize, hlen0]

def w9moon : List MoonRow := [⟨0, "New Moon", Cell.num 1⟩]

def w9price : List PriceRow := [⟨0, Cell.num 1⟩]

def w9entry : PhaseSummary := ⟨"First Quarter", "0.00", "0.00", "0.00", 0, "1.00"⟩

/-- Witness for C9 at a concrete input. -/
theorem C9_zero_count_fields_witness :
    w9entry.avgRange = "0.00" ∧ w9entry.maxRange = "0.00" ∧ w9entry.minRange = "0.00" :=
  (C9_zero_count_fields w9moon w9price 1 (processBody w9moon w9price 1) rfl).2
    w9entry (by decide) (by decide)
